import Mathlib

/-!
# Verification of `invitations.py` (chocolatemelt/focus)

Shallow embedding of the pure scheduling core of
`src/snippets/python-invitations/invitations.py`:

* `strptime` models `datetime.datetime.strptime(d, '%Y-%m-%d')` — four digit
  year, one-or-two digit month and day fields (Python's `_strptime` regexes
  `%Y = \d{4}`, `%m = 1[0-2]|0[1-9]|[1-9]`, `%d = 3[01]|[12]\d|0[1-9]|[1-9]`),
  full-string match, then calendar validity as enforced by the `datetime`
  constructor (year ≥ 1, day ≤ days in month, Gregorian leap rule).
* `strftime` models `.strftime('%Y-%m-%d')` on glibc: `%Y` prints the year as
  an unpadded decimal number, `%m`/`%d` are zero-padded to two digits.
* `get_valid_dates`, `organize_event`, `construct` are the three functions of
  the source, with the Python `dict` modelled as an insertion-ordered
  association list and Python exceptions modelled by `Except PyErr`.

Dates are triples of naturals ordered lexicographically, matching `datetime`
comparison; `+ datetime.timedelta(days=1)` is `nextDay`.
-/

/-- A calendar date, the value content of a Python `datetime` at midnight. -/
structure Date where
  y : Nat
  m : Nat
  d : Nat
deriving DecidableEq, Repr

/-- Gregorian leap-year rule, as used by `datetime`. -/
def isLeap (y : Nat) : Bool :=
  (y % 4 == 0 && y % 100 != 0) || y % 400 == 0

/-- Days in a month, as used by `datetime` to validate a date. -/
def daysInMonth (y m : Nat) : Nat :=
  if m == 2 then (if isLeap y then 29 else 28)
  else if m == 4 || m == 6 || m == 9 || m == 11 then 30
  else 31

/-- `date + datetime.timedelta(days=1)` expressed on calendar fields. -/
def nextDay (dt : Date) : Date :=
  if dt.d < daysInMonth dt.y dt.m then ⟨dt.y, dt.m, dt.d + 1⟩
  else if dt.m < 12 then ⟨dt.y, dt.m + 1, 1⟩
  else ⟨dt.y + 1, 1, 1⟩

/-- The `datetime` total order: lexicographic on (year, month, day). -/
def dateLE (a b : Date) : Prop :=
  a.y < b.y ∨ (a.y = b.y ∧ (a.m < b.m ∨ (a.m = b.m ∧ a.d ≤ b.d)))

instance : DecidableRel dateLE := fun a b => by
  unfold dateLE; infer_instance

instance : IsTotal Date dateLE :=
  ⟨fun a b => by unfold dateLE; omega⟩

instance : IsTrans Date dateLE :=
  ⟨fun a b c hab hbc => by unfold dateLE at *; omega⟩

instance : IsAntisymm Date dateLE :=
  ⟨fun a b hab hba => by
    unfold dateLE at *
    have : a.y = b.y ∧ a.m = b.m ∧ a.d = b.d := by omega
    cases a; cases b; simp_all⟩

theorem dateLE_refl (a : Date) : dateLE a a := by unfold dateLE; omega

/-- The successor day is strictly later. -/
theorem not_dateLE_nextDay (dt : Date) : ¬ dateLE (nextDay dt) dt := by
  unfold nextDay
  split
  · unfold dateLE; simp
  · split
    · unfold dateLE; simp
    · unfold dateLE; simp

/-! ## Parsing: `datetime.datetime.strptime(d, '%Y-%m-%d')` -/

/-- Is `c` an ASCII digit? -/
def isDigitC (c : Char) : Bool :=
  48 ≤ c.toNat && c.toNat ≤ 57

/-- Numeric value of an ASCII digit. -/
def digitVal (c : Char) : Nat := c.toNat - 48

/-- The ASCII digit character for `n < 10`. -/
def digitChar10 (n : Nat) : Char := Char.ofNat (48 + n)

/-- One field of `%m` / `%d`: one or two digits, two when two digits are
present (Python's regex alternation with the following literal forced to
`-` or end-of-string resolves exactly this way). Returns the value and the
unconsumed characters. -/
def parse2or1 : List Char → Option (Nat × List Char)
  | c1 :: c2 :: rest =>
    if isDigitC c1 then
      if isDigitC c2 then some (10 * digitVal c1 + digitVal c2, rest)
      else some (digitVal c1, c2 :: rest)
    else none
  | [c1] => if isDigitC c1 then some (digitVal c1, []) else none
  | [] => none

/-- `datetime.datetime.strptime(s, '%Y-%m-%d')`, returning `none` where Python
raises `ValueError` (regex mismatch, leftover characters, or an invalid
calendar date such as year 0 or day out of range for the month). -/
def strptime (s : String) : Option Date :=
  match s.data with
  | c1 :: c2 :: c3 :: c4 :: '-' :: rest =>
    if isDigitC c1 && isDigitC c2 && isDigitC c3 && isDigitC c4 then
      match parse2or1 rest with
      | some (m, '-' :: rest2) =>
        match parse2or1 rest2 with
        | some (d, []) =>
          let y := 1000 * digitVal c1 + 100 * digitVal c2 +
                   10 * digitVal c3 + digitVal c4
          if 1 ≤ y ∧ 1 ≤ m ∧ m ≤ 12 ∧ 1 ≤ d ∧ d ≤ daysInMonth y m then
            some ⟨y, m, d⟩
          else none
        | _ => none
      | _ => none
    else none
  | _ => none

/-! ## Formatting: `.strftime('%Y-%m-%d')` -/

/-- Decimal digits of `n`, unpadded, with explicit recursion fuel (any
`fuel > n` gives the digits of `n`). -/
def natDigitsF : Nat → Nat → List Char
  | 0, _ => []
  | fuel + 1, n =>
    if n < 10 then [digitChar10 n]
    else natDigitsF fuel (n / 10) ++ [digitChar10 (n % 10)]

/-- Decimal digits of `n`, unpadded — glibc's `%Y`. -/
def natDigits (n : Nat) : List Char := natDigitsF (n + 1) n

/-- Two-digit zero-padded field — `%m` and `%d` (values here are < 100). -/
def pad2 (n : Nat) : List Char :=
  [digitChar10 (n / 10 % 10), digitChar10 (n % 10)]

/-- `dt.strftime('%Y-%m-%d')` as in `construct`. -/
def strftime (dt : Date) : String :=
  ⟨natDigits dt.y ++ '-' :: pad2 dt.m ++ '-' :: pad2 dt.d⟩

/-- Does `s` have the fully padded shape `YYYY-MM-DD` (ten characters, digit
fields of widths 4, 2, 2)? -/
def isPaddedForm (s : String) : Bool :=
  match s.data with
  | [a, b, c, d, '-', e, f, '-', g, h] =>
    isDigitC a && isDigitC b && isDigitC c && isDigitC d &&
    isDigitC e && isDigitC f && isDigitC g && isDigitC h
  | _ => false

/-! ## Errors and the per-attendee extractor `get_valid_dates` -/

/-- The Python exceptions the core can raise: `ValueError` from `strptime`
(carrying the offending text) and `KeyError` from a failed `dict` lookup. -/
inductive PyErr where
  | valueError (s : String)
  | keyError
deriving DecidableEq, Repr

instance {ε α : Type} [DecidableEq ε] [DecidableEq α] : DecidableEq (Except ε α)
  | .error e, .error f =>
    if h : e = f then isTrue (by rw [h]) else isFalse (by simp [h])
  | .error _, .ok _ => isFalse (by simp)
  | .ok _, .error _ => isFalse (by simp)
  | .ok a, .ok b =>
    if h : a = b then isTrue (by rw [h]) else isFalse (by simp [h])

/-- `list(map(lambda d: datetime.datetime.strptime(d, '%Y-%m-%d'), available_dates))`:
parses left to right, raising `ValueError` at the first unparseable entry. -/
def parseAll : List String → Except PyErr (List Date)
  | [] => .ok []
  | s :: rest =>
    match strptime s with
    | none => .error (.valueError s)
    | some dt =>
      match parseAll rest with
      | .error e => .error e
      | .ok ds => .ok (dt :: ds)

/-- The scan of `get_valid_dates` after parsing: sort the dates, then for
every date except the last (`dates[:-1]`) keep it when its next calendar day
occurs in the (full, sorted) list. -/
def scanWindows (ds : List Date) : List Date :=
  (List.insertionSort dateLE ds).dropLast.filter
    (fun dt => decide (nextDay dt ∈ List.insertionSort dateLE ds))

/-- `get_valid_dates(available_dates)` from the source: parse every entry,
sort, and return the starts of two-consecutive-day windows. -/
def get_valid_dates (available_dates : List String) : Except PyErr (List Date) :=
  match parseAll available_dates with
  | .error e => .error e
  | .ok ds => .ok (scanWindows ds)

/-! ## Aggregation and selection: `organize_event` -/

/-- An attendee record as consumed by `organize_event`: the `email` and
`availableDates` fields of the partner dictionary. -/
structure Attendee where
  email : String
  availableDates : List String
deriving DecidableEq, Repr

/-- The Python `dict` mapping dates to attendee emails, modelled as an
insertion-ordered association list (Python dicts iterate in insertion
order). -/
abbrev VMap := List (Date × List String)

/-- One step of the aggregation loop body: `valid_date_mapping[date].append(email)`
when the key exists, else `valid_date_mapping[date] = [email]` (new keys go to
the end of the iteration order). -/
def addDate (m : VMap) (email : String) (dt : Date) : VMap :=
  if m.any (fun p => decide (p.1 = dt)) then
    m.map (fun p => if p.1 = dt then (p.1, p.2 ++ [email]) else p)
  else m ++ [(dt, [email])]

/-- The aggregation loop of `organize_event`: for each attendee in order,
compute their valid dates and record their email under each one, propagating
a `ValueError` from `get_valid_dates`. -/
def aggregate (attendees : List Attendee) (m : VMap) : Except PyErr VMap :=
  match attendees with
  | [] => .ok m
  | a :: rest =>
    match get_valid_dates a.availableDates with
    | .error e => .error e
    | .ok vds => aggregate rest (vds.foldl (fun acc dt => addDate acc a.email dt) m)

/-- The selection loop of `organize_event`: iterate the mapping in insertion
order, keeping the first key whose support count strictly exceeds the running
maximum (`highest = 0`, `ret = None` initially). -/
def selectLoop (m : VMap) (highest : Nat) (ret : Option Date) : Option Date :=
  match m with
  | [] => ret
  | (dt, ids) :: rest =>
    if ids.length > highest then selectLoop rest ids.length (some dt)
    else selectLoop rest highest ret

/-- Dictionary lookup `valid_date_mapping[key]`. -/
def lookupD (m : VMap) (dt : Date) : Option (List String) :=
  (m.find? (fun p => decide (p.1 = dt))).map (·.2)

/-- `organize_event(attendees)` from the source. The final
`return (ret, valid_date_mapping[ret])` performs a dict subscript: when `ret`
is still `None` (empty mapping) or otherwise absent, Python raises
`KeyError`. -/
def organize_event (attendees : List Attendee) : Except PyErr (Date × List String) :=
  match aggregate attendees [] with
  | .error e => .error e
  | .ok m =>
    match selectLoop m 0 none with
    | none => .error .keyError
    | some dt =>
      match lookupD m dt with
      | some ids => .ok (dt, ids)
      | none => .error .keyError

/-! ## Record construction: `construct` -/

/-- The POST-body dictionary built by `construct`. -/
structure OutputRecord where
  attendeeCount : Nat
  attendees : List String
  name : String
  startDate : String
deriving DecidableEq, Repr

/-- `construct(event, country)` from the source. -/
def construct (event : Date × List String) (country : String) : OutputRecord :=
  { attendeeCount := event.2.length
    attendees := event.2
    name := country
    startDate := strftime event.1 }

/-! ## Helper lemmas -/

/-- Inversion of a successful `get_valid_dates`. -/
theorem get_valid_dates_ok {l : List String} {vs : List Date}
    (h : get_valid_dates l = .ok vs) :
    ∃ ds, parseAll l = .ok ds ∧ vs = scanWindows ds := by
  unfold get_valid_dates at h
  split at h
  · exact absurd h (by simp)
  · exact ⟨_, by assumption, by injection h with h; exact h.symm⟩

/-- In a `dateLE`-sorted list, an element strictly below some member is not
the last element. -/
theorem mem_dropLast_of_lt :
    ∀ (l : List Date), l.Sorted dateLE → ∀ {x y : Date},
      x ∈ l → y ∈ l → ¬ dateLE y x → x ∈ l.dropLast := by
  intro l
  induction l with
  | nil => intro _ x y hx _ _; cases hx
  | cons a t ih =>
    intro hs x y hx hy hxy
    cases t with
    | nil =>
      rw [List.mem_singleton] at hx hy
      exact absurd (by rw [hx, hy]; exact dateLE_refl a) hxy
    | cons b t' =>
      rw [List.dropLast_cons₂]
      rcases List.mem_cons.mp hx with rfl | hx'
      · exact List.mem_cons_self _ _
      · rcases List.mem_cons.mp hy with rfl | hy'
        · exact absurd (List.rel_of_sorted_cons hs x hx') hxy
        · exact List.mem_cons_of_mem _ (ih hs.of_cons hx' hy' hxy)

/-- Membership characterisation of the window scan: `d` is kept iff both `d`
and its next calendar day occur among the parsed dates. -/
theorem mem_scanWindows (ds : List Date) (d : Date) :
    d ∈ scanWindows ds ↔ d ∈ ds ∧ nextDay d ∈ ds := by
  unfold scanWindows
  rw [List.mem_filter]
  simp only [decide_eq_true_eq]
  constructor
  · rintro ⟨hmem, hnext⟩
    have hsub : d ∈ List.insertionSort dateLE ds :=
      (List.dropLast_sublist _).subset hmem
    exact ⟨(List.perm_insertionSort dateLE ds).subset hsub,
      (List.perm_insertionSort dateLE ds).subset hnext⟩
  · rintro ⟨hd, hn⟩
    have hd' : d ∈ List.insertionSort dateLE ds :=
      (List.perm_insertionSort dateLE ds).symm.subset hd
    have hn' : nextDay d ∈ List.insertionSort dateLE ds :=
      (List.perm_insertionSort dateLE ds).symm.subset hn
    exact ⟨mem_dropLast_of_lt _ (List.sorted_insertionSort dateLE ds) hd' hn'
      (not_dateLE_nextDay d), hn'⟩

/-- Every parsed date comes from some input string. -/
theorem parseAll_mem :
    ∀ {l : List String} {ds : List Date}, parseAll l = .ok ds →
      ∀ {x : Date}, x ∈ ds → ∃ s ∈ l, strptime s = some x := by
  intro l
  induction l with
  | nil =>
    intro ds h x hx
    unfold parseAll at h
    injection h with h; subst h; cases hx
  | cons s rest ih =>
    intro ds h x hx
    unfold parseAll at h
    split at h
    · exact absurd h (by simp)
    · split at h
      · exact absurd h (by simp)
      · injection h with h; subst h
        rcases List.mem_cons.mp hx with rfl | hx'
        · exact ⟨s, List.mem_cons_self _ _, by assumption⟩
        · obtain ⟨s', hs', hps'⟩ := ih (by assumption) hx'
          exact ⟨s', List.mem_cons_of_mem _ hs', hps'⟩

/-- A list whose entries all parse yields a successful `parseAll`. -/
theorem parseAll_total :
    ∀ (l : List String), (∀ s ∈ l, (strptime s).isSome) →
      ∃ ds, parseAll l = .ok ds := by
  intro l
  induction l with
  | nil => exact fun _ => ⟨[], rfl⟩
  | cons s rest ih =>
    intro h
    obtain ⟨dt, hdt⟩ := Option.isSome_iff_exists.mp (h s (List.mem_cons_self _ _))
    obtain ⟨ds, hds⟩ := ih (fun s' hs' => h s' (List.mem_cons_of_mem _ hs'))
    refine ⟨dt :: ds, ?_⟩
    unfold parseAll
    rw [hdt, hds]

/-- `parseAll` fails with a `ValueError` naming the first unparseable entry. -/
theorem parseAll_err :
    ∀ (pre : List String) (post : List String) (s0 : String),
      (∀ s ∈ pre, (strptime s).isSome) → strptime s0 = none →
      parseAll (pre ++ s0 :: post) = .error (.valueError s0) := by
  intro pre
  induction pre with
  | nil =>
    intro post s0 _ h0
    unfold parseAll
    rw [List.nil_append]
    simp only [h0]
  | cons s rest ih =>
    intro post s0 hpre h0
    obtain ⟨dt, hdt⟩ :=
      Option.isSome_iff_exists.mp (hpre s (List.mem_cons_self _ _))
    have := ih post s0 (fun s' hs' => hpre s' (List.mem_cons_of_mem _ hs')) h0
    rw [List.cons_append]
    unfold parseAll
    rw [hdt, this]

/-- `addDate` adds at most the key `dt` to the mapping's key set. -/
theorem addDate_keys {m : VMap} {email : String} {dt k : Date}
    (h : k ∈ (addDate m email dt).map Prod.fst) :
    k ∈ m.map Prod.fst ∨ k = dt := by
  unfold addDate at h
  split at h
  · left
    rw [List.map_map] at h
    have : (Prod.fst ∘ fun p : Date × List String =>
        if p.1 = dt then (p.1, p.2 ++ [email]) else p) = Prod.fst := by
      funext p
      simp only [Function.comp_apply]
      split <;> rfl
    rwa [this] at h
  · rw [List.map_append, List.mem_append] at h
    rcases h with h | h
    · exact Or.inl h
    · right
      simpa using h

/-- Folding `addDate` over a list of dates adds at most those dates as keys. -/
theorem foldl_addDate_keys (email : String) :
    ∀ (vds : List Date) (m : VMap) (k : Date),
      k ∈ (vds.foldl (fun acc dt => addDate acc email dt) m).map Prod.fst →
      k ∈ m.map Prod.fst ∨ k ∈ vds := by
  intro vds
  induction vds with
  | nil => exact fun m k h => Or.inl h
  | cons v t ih =>
    intro m k h
    rw [List.foldl_cons] at h
    rcases ih (addDate m email v) k h with h' | h'
    · rcases addDate_keys h' with h'' | rfl
      · exact Or.inl h''
      · exact Or.inr (List.mem_cons_self _ _)
    · exact Or.inr (List.mem_cons_of_mem _ h')

/-- Every key of the aggregation mapping is a valid window start of some
attendee in the processed list. -/
theorem aggregate_keys :
    ∀ (atts : List Attendee) (m m' : VMap), aggregate atts m = .ok m' →
      ∀ k ∈ m'.map Prod.fst,
        k ∈ m.map Prod.fst ∨
        ∃ a ∈ atts, ∃ ds, parseAll a.availableDates = .ok ds ∧ k ∈ scanWindows ds := by
  intro atts
  induction atts with
  | nil =>
    intro m m' h k hk
    unfold aggregate at h
    injection h with h; subst h
    exact Or.inl hk
  | cons a rest ih =>
    intro m m' h k hk
    unfold aggregate at h
    split at h
    · exact absurd h (by simp)
    · rcases ih _ _ h k hk with h' | ⟨b, hb, ds, hds, hscan⟩
      · rcases foldl_addDate_keys a.email _ m k h' with h'' | h''
        · exact Or.inl h''
        · obtain ⟨ds, hds, rfl⟩ := get_valid_dates_ok (by assumption)
          exact Or.inr ⟨a, List.mem_cons_self _ _, ds, hds, h''⟩
      · exact Or.inr ⟨b, List.mem_cons_of_mem _ hb, ds, hds, hscan⟩

/-- The date returned by the selection loop is a key of the mapping (or was
the date already held in `ret`). -/
theorem selectLoop_mem :
    ∀ (m : VMap) (hi : Nat) (r : Option Date) (d : Date),
      selectLoop m hi r = some d → d ∈ m.map Prod.fst ∨ r = some d := by
  intro m
  induction m with
  | nil => exact fun hi r d h => Or.inr h
  | cons p rest ih =>
    intro hi r d h
    unfold selectLoop at h
    split at h
    · rcases ih _ _ _ h with h' | h'
      · exact Or.inl (List.mem_cons_of_mem _ h')
      · injection h' with h'
        exact Or.inl (by rw [← h']; exact List.mem_cons_self _ _)
    · rcases ih _ _ _ h with h' | h'
      · exact Or.inl (List.mem_cons_of_mem _ h')
      · exact Or.inr h'

/-- Inversion of a successful `organize_event`. -/
theorem organize_event_ok {atts : List Attendee} {d : Date} {ids : List String}
    (h : organize_event atts = .ok (d, ids)) :
    ∃ m, aggregate atts [] = .ok m ∧ selectLoop m 0 none = some d := by
  unfold organize_event at h
  split at h
  · exact absurd h (by simp)
  · split at h
    · exact absurd h (by simp)
    · split at h
      · injection h with h
        refine ⟨_, by assumption, ?_⟩
        have h1 := congrArg Prod.fst h
        simp only at h1
        rw [← h1]
        assumption
      · exact absurd h (by simp)

/-- When an attendee's dates fail to parse and all earlier attendees parse
cleanly, aggregation propagates the failure. -/
theorem aggregate_err :
    ∀ (preA : List Attendee) (postA : List Attendee) (a : Attendee) (e : PyErr),
      (∀ b ∈ preA, ∀ s ∈ b.availableDates, (strptime s).isSome) →
      get_valid_dates a.availableDates = .error e →
      ∀ m, aggregate (preA ++ a :: postA) m = .error e := by
  intro preA
  induction preA with
  | nil =>
    intro postA a e _ ha m
    rw [List.nil_append]
    unfold aggregate
    rw [ha]
  | cons b rest ih =>
    intro postA a e hpre ha m
    obtain ⟨ds, hds⟩ :=
      parseAll_total b.availableDates (hpre b (List.mem_cons_self _ _))
    have hb : get_valid_dates b.availableDates = .ok (scanWindows ds) := by
      unfold get_valid_dates
      rw [hds]
    rw [List.cons_append]
    unfold aggregate
    rw [hb]
    exact ih postA a e (fun b' hb' => hpre b' (List.mem_cons_of_mem _ hb')) ha _

/-! ## Claim theorems -/

/-- C1: the claim says the selection loop returns, among all dates achieving
the maximum attendee count, the minimum date, regardless of insertion order —
and in particular returns 2024-05-01 for the support
`{2024-05-01: [a,b], 2024-05-03: [c,d]}`. The code iterates the dict in
insertion order keeping only the first date that reaches a maximum, so when
the entries were inserted with 2024-05-03 first (both with count 2), it
returns 2024-05-03, contradicting the function's own docstring ("In the case
of multiple dates, organize_event returns the earliest date"). -/
theorem organize_event_tiebreak_bug :
    aggregate
      [⟨"c", ["2024-05-03", "2024-05-04"]⟩, ⟨"d", ["2024-05-03", "2024-05-04"]⟩,
       ⟨"a", ["2024-05-01", "2024-05-02"]⟩, ⟨"b", ["2024-05-01", "2024-05-02"]⟩] [] =
      .ok [(⟨2024, 5, 3⟩, ["c", "d"]), (⟨2024, 5, 1⟩, ["a", "b"])] ∧
    organize_event
      [⟨"c", ["2024-05-03", "2024-05-04"]⟩, ⟨"d", ["2024-05-03", "2024-05-04"]⟩,
       ⟨"a", ["2024-05-01", "2024-05-02"]⟩, ⟨"b", ["2024-05-01", "2024-05-02"]⟩] =
      .ok (⟨2024, 5, 3⟩, ["c", "d"]) ∧
    ¬ dateLE ⟨2024, 5, 3⟩ ⟨2024, 5, 1⟩ := by
  refine ⟨by decide, by decide, by decide⟩

/-- C2: the claim says an empty support mapping yields a distinguishable
Absent value, not an exception. The code's final
`return (ret, valid_date_mapping[ret])` subscripts the dict with `ret = None`
and raises `KeyError`, contradicting the docstring ("… or None if no valid
dates"): shown on the empty group and on a group whose only attendee has a
single available date. -/
theorem organize_event_empty_bug :
    organize_event [] = .error .keyError ∧
    organize_event [⟨"a", ["2024-07-01"]⟩] = .error .keyError := by
  refine ⟨by decide, by decide⟩

/-- C3: the claim says permuting the attendee list never changes the selected
date or count. Reversing a two-attendee group flips the dict insertion order
and the selection loop picks a different date (2024-06-01 vs 2024-06-03), so
the claim fails on the code; the docstring's promise of the earliest date is
violated on the second ordering. -/
theorem organize_event_permutation_bug :
    organize_event
      [⟨"a", ["2024-06-01", "2024-06-02"]⟩, ⟨"c", ["2024-06-03", "2024-06-04"]⟩] =
      .ok (⟨2024, 6, 1⟩, ["a"]) ∧
    organize_event
      [⟨"c", ["2024-06-03", "2024-06-04"]⟩, ⟨"a", ["2024-06-01", "2024-06-02"]⟩] =
      .ok (⟨2024, 6, 3⟩, ["c"]) ∧
    (⟨2024, 6, 1⟩ : Date) ≠ ⟨2024, 6, 3⟩ := by
  refine ⟨by decide, by decide, by decide⟩

/-- C4, counterexample: `get_valid_dates` does not deduplicate its input. A
duplicated date whose next day is also available yields a repeated window
start, and the repeated start inflates the date's support in
`organize_event` (one attendee counted twice). -/
theorem get_valid_dates_dedup_counterexample :
    get_valid_dates ["2024-05-01", "2024-05-01", "2024-05-02"] =
      .ok [⟨2024, 5, 1⟩, ⟨2024, 5, 1⟩] ∧
    ¬ ([⟨2024, 5, 1⟩, ⟨2024, 5, 1⟩] : List Date).Nodup ∧
    organize_event [⟨"a", ["2024-05-01", "2024-05-01", "2024-05-02"]⟩] =
      .ok (⟨2024, 5, 1⟩, ["a", "a"]) := by
  refine ⟨by decide, by decide, by decide⟩

/-- C4, amended: `get_valid_dates` performs no deduplication, so a duplicated
available date can appear multiple times in the output and inflate support;
but whenever the parsed dates are pairwise distinct, no window start appears
more than once in the output. -/
theorem get_valid_dates_nodup (l : List String) (ds : List Date)
    (hp : parseAll l = .ok ds) (hnd : ds.Nodup)
    (vs : List Date) (hv : get_valid_dates l = .ok vs) : vs.Nodup := by
  obtain ⟨ds', hds', rfl⟩ := get_valid_dates_ok hv
  rw [hp] at hds'
  injection hds' with hds'
  subst hds'
  unfold scanWindows
  have h1 : (List.insertionSort dateLE ds).Nodup :=
    (List.perm_insertionSort dateLE ds).symm.nodup hnd
  exact ((List.filter_sublist _).trans (List.dropLast_sublist _)).nodup h1

/-- Witness for the amended C4 at a concrete duplicate-free input. -/
theorem get_valid_dates_nodup_witness :
    parseAll ["2024-05-02", "2024-05-01", "2024-05-03"] =
      .ok [⟨2024, 5, 2⟩, ⟨2024, 5, 1⟩, ⟨2024, 5, 3⟩] ∧
    ([⟨2024, 5, 2⟩, ⟨2024, 5, 1⟩, ⟨2024, 5, 3⟩] : List Date).Nodup ∧
    get_valid_dates ["2024-05-02", "2024-05-01", "2024-05-03"] =
      .ok [⟨2024, 5, 1⟩, ⟨2024, 5, 2⟩] ∧
    ([⟨2024, 5, 1⟩, ⟨2024, 5, 2⟩] : List Date).Nodup :=
  ⟨by decide, by decide, by decide,
    get_valid_dates_nodup ["2024-05-02", "2024-05-01", "2024-05-03"]
      [⟨2024, 5, 2⟩, ⟨2024, 5, 1⟩, ⟨2024, 5, 3⟩] (by decide) (by decide)
      [⟨2024, 5, 1⟩, ⟨2024, 5, 2⟩] (by decide)⟩

/-- C5: a date is a returned window start iff both it and its next calendar
day are among the attendee's parsed dates; in particular the empty input and
any single-date input yield the empty output, and a date followed by a gap
is never returned. -/
theorem get_valid_dates_mem_iff (l : List String) (ds : List Date)
    (hp : parseAll l = .ok ds) :
    (∀ vs, get_valid_dates l = .ok vs →
      ∀ d, d ∈ vs ↔ d ∈ ds ∧ nextDay d ∈ ds) ∧
    get_valid_dates [] = .ok [] ∧
    (∀ s dt, strptime s = some dt → get_valid_dates [s] = .ok []) := by
  refine ⟨?_, rfl, ?_⟩
  · intro vs hvs d
    obtain ⟨ds', hds', rfl⟩ := get_valid_dates_ok hvs
    rw [hp] at hds'
    injection hds' with hds'
    subst hds'
    exact mem_scanWindows ds d
  · intro s dt h
    unfold get_valid_dates parseAll
    rw [h]
    rfl

/-- Witness for C5 at a concrete input with a gap. -/
theorem get_valid_dates_mem_iff_witness :
    parseAll ["2024-05-02", "2024-05-01", "2024-05-04"] =
      .ok [⟨2024, 5, 2⟩, ⟨2024, 5, 1⟩, ⟨2024, 5, 4⟩] ∧
    get_valid_dates ["2024-05-02", "2024-05-01", "2024-05-04"] =
      .ok [⟨2024, 5, 1⟩] ∧
    ((⟨2024, 5, 1⟩ : Date) ∈ [(⟨2024, 5, 1⟩ : Date)] ↔
      (⟨2024, 5, 1⟩ : Date) ∈ [⟨2024, 5, 2⟩, ⟨2024, 5, 1⟩, ⟨2024, 5, 4⟩] ∧
      nextDay ⟨2024, 5, 1⟩ ∈ [(⟨2024, 5, 2⟩ : Date), ⟨2024, 5, 1⟩, ⟨2024, 5, 4⟩]) :=
  ⟨by decide, by decide,
    (get_valid_dates_mem_iff ["2024-05-02", "2024-05-01", "2024-05-04"]
      [⟨2024, 5, 2⟩, ⟨2024, 5, 1⟩, ⟨2024, 5, 4⟩] (by decide)).1
      [⟨2024, 5, 1⟩] (by decide) ⟨2024, 5, 1⟩⟩

/-- C6: when an attendee's `availableDates` holds an unparseable entry (all
entries before it parse), `get_valid_dates` fails with a `ValueError`
identifying that entry — no window list is produced for the attendee — and
`organize_event` propagates the same error when every earlier attendee's
dates all parse. -/
theorem malformed_date_error (pre post : List String) (s0 : String)
    (preA postA : List Attendee) (a : Attendee)
    (hdates : a.availableDates = pre ++ s0 :: post)
    (hpre : ∀ s ∈ pre, (strptime s).isSome)
    (h0 : strptime s0 = none)
    (hpreA : ∀ b ∈ preA, ∀ s ∈ b.availableDates, (strptime s).isSome) :
    get_valid_dates a.availableDates = .error (.valueError s0) ∧
    organize_event (preA ++ a :: postA) = .error (.valueError s0) := by
  have h1 : get_valid_dates a.availableDates = .error (.valueError s0) := by
    unfold get_valid_dates
    rw [hdates, parseAll_err pre post s0 hpre h0]
  refine ⟨h1, ?_⟩
  unfold organize_event
  rw [aggregate_err preA postA a _ hpreA h1 []]

/-- Witness for C6: the spec's malformed value `"2024-13-40"` sitting inside
an attendee's dates, with one well-formed attendee ahead of it. -/
theorem malformed_date_error_witness :
    (⟨"bad", ["2024-01-01", "2024-13-40", "2024-01-02"]⟩ : Attendee).availableDates =
      ["2024-01-01"] ++ "2024-13-40" :: ["2024-01-02"] ∧
    strptime "2024-13-40" = none ∧
    get_valid_dates ["2024-01-01", "2024-13-40", "2024-01-02"] =
      .error (.valueError "2024-13-40") ∧
    organize_event
      [⟨"ok", ["2024-03-01", "2024-03-02"]⟩,
       ⟨"bad", ["2024-01-01", "2024-13-40", "2024-01-02"]⟩] =
      .error (.valueError "2024-13-40") := by
  refine ⟨by decide, by decide, ?_, ?_⟩
  · exact (malformed_date_error ["2024-01-01"] ["2024-01-02"] "2024-13-40"
      [⟨"ok", ["2024-03-01", "2024-03-02"]⟩] []
      ⟨"bad", ["2024-01-01", "2024-13-40", "2024-01-02"]⟩
      (by decide) (by decide) (by decide) (by decide)).1
  · exact (malformed_date_error ["2024-01-01"] ["2024-01-02"] "2024-13-40"
      [⟨"ok", ["2024-03-01", "2024-03-02"]⟩] []
      ⟨"bad", ["2024-01-01", "2024-13-40", "2024-01-02"]⟩
      (by decide) (by decide) (by decide) (by decide)).2

/-- C7: whenever `organize_event` succeeds with a start date, some attendee
of the group has both that date and its next calendar day among their
available dates. -/
theorem selected_date_supported (atts : List Attendee) (d : Date)
    (ids : List String) (h : organize_event atts = .ok (d, ids)) :
    ∃ a ∈ atts,
      (∃ s1 ∈ a.availableDates, strptime s1 = some d) ∧
      (∃ s2 ∈ a.availableDates, strptime s2 = some (nextDay d)) := by
  obtain ⟨m, hm, hsel⟩ := organize_event_ok h
  have hd : d ∈ m.map Prod.fst := by
    rcases selectLoop_mem m 0 none d hsel with h' | h'
    · exact h'
    · exact absurd h' (by simp)
  rcases aggregate_keys atts [] m hm d hd with h0 | ⟨a, ha, ds, hparse, hscan⟩
  · exact absurd h0 (by simp)
  · rw [mem_scanWindows] at hscan
    exact ⟨a, ha, parseAll_mem hparse hscan.1, parseAll_mem hparse hscan.2⟩

/-- Witness for C7: the spec's end-to-end scenario; attendee "a" holds both
2024-06-01 and 2024-06-02. -/
theorem selected_date_supported_witness :
    organize_event
      [⟨"a", ["2024-06-01", "2024-06-02"]⟩, ⟨"b", ["2024-06-02", "2024-06-03"]⟩,
       ⟨"c", ["2024-06-01", "2024-06-02", "2024-06-03"]⟩] =
      .ok (⟨2024, 6, 1⟩, ["a", "c"]) ∧
    (∃ a ∈ [(⟨"a", ["2024-06-01", "2024-06-02"]⟩ : Attendee),
            ⟨"b", ["2024-06-02", "2024-06-03"]⟩,
            ⟨"c", ["2024-06-01", "2024-06-02", "2024-06-03"]⟩],
      (∃ s1 ∈ a.availableDates, strptime s1 = some ⟨2024, 6, 1⟩) ∧
      (∃ s2 ∈ a.availableDates, strptime s2 = some (nextDay ⟨2024, 6, 1⟩))) :=
  ⟨by decide,
    selected_date_supported
      [⟨"a", ["2024-06-01", "2024-06-02"]⟩, ⟨"b", ["2024-06-02", "2024-06-03"]⟩,
       ⟨"c", ["2024-06-01", "2024-06-02", "2024-06-03"]⟩]
      ⟨2024, 6, 1⟩ ["a", "c"] (by decide)⟩

/-- C8: in every record built by `construct`, `attendeeCount` equals the
length of the `attendees` list. -/
theorem construct_count_eq_length (event : Date × List String) (country : String) :
    (construct event country).attendeeCount =
      (construct event country).attendees.length := rfl

/-- C9: the window starts returned by `get_valid_dates` are in ascending
calendar order. -/
theorem get_valid_dates_sorted (l : List String) (vs : List Date)
    (h : get_valid_dates l = .ok vs) : vs.Sorted dateLE := by
  obtain ⟨ds, _, rfl⟩ := get_valid_dates_ok h
  unfold scanWindows
  exact List.Pairwise.sublist
    ((List.filter_sublist _).trans (List.dropLast_sublist _))
    (List.sorted_insertionSort dateLE ds)

/-- Witness for C9 at a concrete unsorted input. -/
theorem get_valid_dates_sorted_witness :
    get_valid_dates ["2024-05-03", "2024-05-01", "2024-05-02", "2024-05-04"] =
      .ok [⟨2024, 5, 1⟩, ⟨2024, 5, 2⟩, ⟨2024, 5, 3⟩] ∧
    ([⟨2024, 5, 1⟩, ⟨2024, 5, 2⟩, ⟨2024, 5, 3⟩] : List Date).Sorted dateLE :=
  ⟨by decide,
    get_valid_dates_sorted ["2024-05-03", "2024-05-01", "2024-05-02", "2024-05-04"]
      [⟨2024, 5, 1⟩, ⟨2024, 5, 2⟩, ⟨2024, 5, 3⟩] (by decide)⟩

/-! ## The parse/format roundtrip -/

theorem digitVal_le {c : Char} (h : isDigitC c = true) : digitVal c ≤ 9 := by
  simp [isDigitC] at h
  unfold digitVal
  omega

theorem digitChar10_digitVal {c : Char} (h : isDigitC c = true) :
    digitChar10 (digitVal c) = c := by
  simp [isDigitC] at h
  unfold digitChar10 digitVal
  rw [show 48 + (c.toNat - 48) = c.toNat by omega, Char.ofNat_toNat]

/-- `natDigitsF` ignores the fuel as long as it exceeds the number. -/
theorem natDigitsF_congr :
    ∀ (f1 n f2 : Nat), n < f1 → n < f2 → natDigitsF f1 n = natDigitsF f2 n := by
  intro f1
  induction f1 with
  | zero => intro n f2 h1 _; omega
  | succ f ih =>
    intro n f2 h1 h2
    cases f2 with
    | zero => omega
    | succ f2' =>
      unfold natDigitsF
      by_cases hn : n < 10
      · simp [hn]
      · simp only [hn, if_false]
        rw [ih (n / 10) f2' (by omega) (by omega)]

theorem natDigitsF_succ_ge (fuel n : Nat) (h : ¬ n < 10) :
    natDigitsF (fuel + 1) n = natDigitsF fuel (n / 10) ++ [digitChar10 (n % 10)] := by
  conv_lhs => unfold natDigitsF
  rw [if_neg h]

theorem natDigitsF_succ_lt (fuel n : Nat) (h : n < 10) :
    natDigitsF (fuel + 1) n = [digitChar10 n] := by
  conv_lhs => unfold natDigitsF
  rw [if_pos h]

/-- glibc's unpadded `%Y` prints a year in `[1000, 9999]` as exactly its four
decimal digits. -/
theorem natDigits_four {y : Nat} (hy1 : 1000 ≤ y) (hy2 : y < 10000) :
    natDigits y = [digitChar10 (y / 1000), digitChar10 (y / 100 % 10),
                   digitChar10 (y / 10 % 10), digitChar10 (y % 10)] := by
  unfold natDigits
  rw [natDigitsF_congr (y + 1) y 10000 (by omega) (by omega)]
  rw [show (10000 : Nat) = 9999 + 1 from rfl,
      natDigitsF_succ_ge 9999 y (by omega)]
  rw [show (9999 : Nat) = 9998 + 1 from rfl,
      natDigitsF_succ_ge 9998 (y / 10) (by omega)]
  rw [show (9998 : Nat) = 9997 + 1 from rfl,
      natDigitsF_succ_ge 9997 (y / 10 / 10) (by omega)]
  rw [show (9997 : Nat) = 9996 + 1 from rfl,
      natDigitsF_succ_lt 9996 (y / 10 / 10 / 10) (by omega)]
  rw [show y / 10 / 10 / 10 = y / 1000 by omega,
      show y / 10 / 10 % 10 = y / 100 % 10 by omega]
  simp

/-- Symbolic evaluation of `strptime` on a fully padded `YYYY-MM-DD` shape. -/
theorem strptime_padded (a b c d e f g h' : Char)
    (ha : isDigitC a = true) (hb : isDigitC b = true) (hc : isDigitC c = true)
    (hd : isDigitC d = true) (he : isDigitC e = true) (hf : isDigitC f = true)
    (hg : isDigitC g = true) (hh : isDigitC h' = true) :
    strptime ⟨[a, b, c, d, '-', e, f, '-', g, h']⟩ =
      if 1 ≤ 1000 * digitVal a + 100 * digitVal b + 10 * digitVal c + digitVal d ∧
         1 ≤ 10 * digitVal e + digitVal f ∧ 10 * digitVal e + digitVal f ≤ 12 ∧
         1 ≤ 10 * digitVal g + digitVal h' ∧
         10 * digitVal g + digitVal h' ≤
           daysInMonth (1000 * digitVal a + 100 * digitVal b + 10 * digitVal c + digitVal d)
             (10 * digitVal e + digitVal f)
      then some ⟨1000 * digitVal a + 100 * digitVal b + 10 * digitVal c + digitVal d,
                 10 * digitVal e + digitVal f, 10 * digitVal g + digitVal h'⟩
      else none := by
  simp [strptime, parse2or1, ha, hb, hc, hd, he, hf, hg, hh]

/-- C10: a padded `YYYY-MM-DD` string with a four-digit year (year ≥ 1000)
that `strptime` accepts is reproduced verbatim by `strftime`, so the
`startDate` written by `construct` is textually the availability entry it
came from. (For years below 1000 the string form is padded but glibc's `%Y`
is not, so the four-digit-year restriction in the claim is what makes the
roundtrip exact.) -/
theorem strptime_strftime_roundtrip (s : String) (dt : Date)
    (h1 : isPaddedForm s = true) (h2 : strptime s = some dt)
    (h3 : 1000 ≤ dt.y) : strftime dt = s := by
  obtain ⟨data⟩ := s
  unfold isPaddedForm at h1
  split at h1
  case h_2 => exact absurd h1 (by simp)
  case h_1 a b c d e f g h' heq =>
    have hdata : data = [a, b, c, d, '-', e, f, '-', g, h'] := heq
    subst hdata
    simp only [Bool.and_eq_true] at h1
    obtain ⟨⟨⟨⟨⟨⟨⟨ha, hb⟩, hc⟩, hd⟩, he⟩, hf⟩, hg⟩, hh⟩ := h1
    rw [strptime_padded a b c d e f g h' ha hb hc hd he hf hg hh] at h2
    split at h2
    case isFalse => exact absurd h2 (by simp)
    case isTrue hcond =>
      injection h2 with h2
      subst h2
      have hva := digitVal_le ha
      have hvb := digitVal_le hb
      have hvc := digitVal_le hc
      have hvd := digitVal_le hd
      have hve := digitVal_le he
      have hvf := digitVal_le hf
      have hvg := digitVal_le hg
      have hvh := digitVal_le hh
      have hy : 1000 ≤ 1000 * digitVal a + 100 * digitVal b + 10 * digitVal c + digitVal d :=
        h3
      unfold strftime pad2
      simp only
      rw [natDigits_four hy (by omega)]
      rw [show (1000 * digitVal a + 100 * digitVal b + 10 * digitVal c + digitVal d) / 1000 =
            digitVal a by omega,
          show (1000 * digitVal a + 100 * digitVal b + 10 * digitVal c + digitVal d) / 100 % 10 =
            digitVal b by omega,
          show (1000 * digitVal a + 100 * digitVal b + 10 * digitVal c + digitVal d) / 10 % 10 =
            digitVal c by omega,
          show (1000 * digitVal a + 100 * digitVal b + 10 * digitVal c + digitVal d) % 10 =
            digitVal d by omega,
          show (10 * digitVal e + digitVal f) / 10 % 10 = digitVal e by omega,
          show (10 * digitVal e + digitVal f) % 10 = digitVal f by omega,
          show (10 * digitVal g + digitVal h') / 10 % 10 = digitVal g by omega,
          show (10 * digitVal g + digitVal h') % 10 = digitVal h' by omega]
      rw [digitChar10_digitVal ha, digitChar10_digitVal hb, digitChar10_digitVal hc,
          digitChar10_digitVal hd, digitChar10_digitVal he, digitChar10_digitVal hf,
          digitChar10_digitVal hg, digitChar10_digitVal hh]
      rfl

/-- Witness for C10 at a concrete padded string. -/
theorem strptime_strftime_roundtrip_witness :
    isPaddedForm "2024-05-01" = true ∧
    strptime "2024-05-01" = some ⟨2024, 5, 1⟩ ∧
    1000 ≤ (⟨2024, 5, 1⟩ : Date).y ∧
    strftime ⟨2024, 5, 1⟩ = "2024-05-01" :=
  ⟨by decide, by decide, by decide,
    strptime_strftime_roundtrip "2024-05-01" ⟨2024, 5, 1⟩
      (by decide) (by decide) (by decide)⟩
